import Mathlib

/-!
Verification of the spatial-join-and-aggregation pipeline of
`vrts-bus-performance` (src/utils.py), against its natural-language
specification.

The pipeline is shallowly embedded:

* One GPS record of the `vehicle_positions` table is a `Ping`; one row of
  `feed.segments` is a `Segment`; one row of `feed.trips_patterns` is a
  `TripPattern`; timestamps are integral local-time seconds (the database
  stores whole epoch seconds, which `_vehicle_positions` converts to the
  local time zone; we model the local clock directly).
* Geometry is kept abstract: a geometry is a list of rational coordinate
  pairs, and the whole model is parameterised over a projection
  `proj : Pt → Pt` (WGS-84 → EPSG:26910), its rendering inverse `unproj`,
  and a point-to-geometry distance `dist : Pt → Geom → ℚ` (the metric used
  by `sjoin_nearest` in the projected CRS).  Every theorem quantifies over
  these, so nothing depends on a particular projection.
* `sjoin_nearest(..., max_distance=12)` keeps, for each left row, every
  right-hand geometry attaining the minimal distance when that minimum is
  at most 12 (geopandas documents that all equidistant nearest neighbours
  are returned).
* Fallible steps (`groupby(...).get_group` raising `KeyError`,
  `strictmode` raising `ValueError`, `pivot_table(...).loc[h]` raising
  `KeyError`) are modelled with `Except`.
* `describe()`'s `std` and quartile columns are not modelled; no stated
  property refers to them.  Figure construction and file writing are
  modelled only through the file names they produce.
-/



instance {ε α : Type} [DecidableEq ε] [DecidableEq α] : DecidableEq (Except ε α) := fun
  | .ok a, .ok b =>
    match decEq a b with
    | isTrue h => isTrue (by rw [h])
    | isFalse h => isFalse (by intro hh; cases hh; exact h rfl)
  | .error a, .error b =>
    match decEq a b with
    | isTrue h => isTrue (by rw [h])
    | isFalse h => isFalse (by intro hh; cases hh; exact h rfl)
  | .ok _, .error _ => isFalse (by intro h; cases h)
  | .error _, .ok _ => isFalse (by intro h; cases h)

/-- A planar coordinate pair (exact rational stand-in for float coordinates). -/
abbrev Pt : Type := ℚ × ℚ

/-- A geometry (point sequence of a line-string). -/
abbrev Geom : Type := List Pt

/-- One row of the `vehicle_positions` table, restricted to the columns the
`_vehicle_positions` query selects (src/utils.py lines 53-99).  `timestamp`
and `start_time` are whole seconds on the local clock (the query returns epoch
seconds which are converted to the `America/Vancouver` zone). -/
structure Ping where
  latitude : ℚ
  longitude : ℚ
  start_time : Int
  timestamp : Int
  speed : ℚ
  odometer : ℚ
  vehicle_id : String
  route_id : String
  direction_id : Nat
  stop_id : String
  current_status : String
  trip_id : String
deriving DecidableEq, Repr

/-- One row of `feed.trips_patterns`: the schedule's trip → shape/pattern
mapping, keyed by (trip_id, route_id, direction_id). -/
structure TripPattern where
  trip_id : String
  route_id : String
  direction_id : Nat
  shape_id : String
  pattern_name : String
deriving DecidableEq, Repr

/-- One row of `feed.segments`: a route segment with stop metadata and a
line-string geometry (given in geographic coordinates, as loaded). -/
structure Segment where
  route_id : String
  direction_id : Nat
  shape_id : String
  segment_id : String
  start_stop_name : String
  start_stop_id : String
  end_stop_name : String
  end_stop_id : String
  stop_sequence : Int
  distance_m : ℚ
  geometry : Geom
deriving DecidableEq, Repr

/-- `hour_of_day` of an integral local timestamp (`.dt.hour`,
src/utils.py line 89). -/
def hourOfDay (t : Int) : Int := t / 3600 % 24

/-- `speed_km` column: speed converted to km/h (src/utils.py line 90). -/
def speedKm (p : Ping) : ℚ := p.speed * (18 / 5)

/-- First occurrences of the elements of a list, given the elements already
seen.  Auxiliary for `firstOccurrences`. -/
def firstOccAux {α : Type} [DecidableEq α] (seen : List α) : List α → List α
  | [] => []
  | x :: xs => if x ∈ seen then firstOccAux seen xs else x :: firstOccAux (x :: seen) xs

/-- The distinct elements of a list in order of first occurrence: the group
keys produced by a pandas `groupby` (pandas sorts keys when they are
orderable; no stated property depends on the order of the groups, so we keep
first-occurrence order, which is also what pandas falls back to for
unsortable keys such as geometries). -/
def firstOccurrences {α : Type} [DecidableEq α] (l : List α) : List α :=
  firstOccAux [] l

/-- Minimum of a list of timestamps (the `"min"` aggregate; 0 is never used
because grouped lists are non-empty). -/
def listMin (l : List Int) : Int := (l.min?).getD 0

/-- Maximum of a list of timestamps (the `"max"` aggregate). -/
def listMax (l : List Int) : Int := (l.max?).getD 0

/-- Twice the median of a list of integral timestamps.  pandas' `"median"`
aggregate sorts the values and takes the middle one (odd count) or the
midpoint of the two middle ones (even count); since that midpoint can be a
half-second, we carry twice the value to stay integral. -/
def twiceMedian (l : List Int) : Int :=
  let s := List.insertionSort (fun a b : Int => a ≤ b) l
  let n := s.length
  if n % 2 = 1 then 2 * s.getD (n / 2) 0
  else s.getD (n / 2 - 1) 0 + s.getD (n / 2) 0

/-- Hour of day of the median timestamp of a group
(`segment_times.pop("median").dt.hour`, src/utils.py lines 235 and 345). -/
def hourOfMedian (l : List Int) : Int := twiceMedian l / 7200 % 24

/-- `pd.Series.value_counts()` of a list of stop-sequence values: one
`(value, count)` pair per distinct value, most frequent first (stable on
ties). -/
def valueCounts (l : List Int) : List (Int × Nat) :=
  List.insertionSort (fun a b : Int × Nat => b.2 ≤ a.2)
    ((firstOccurrences l).map (fun v => (v, l.count v)))

/-- The largest multiplicity appearing in the list. -/
def maxCount (l : List Int) : Nat := ((l.map (l.count ·)).max?).getD 0

/-- `pd.Series.mode`: every value attaining the maximal multiplicity, in
ascending order. -/
def seriesMode (l : List Int) : List Int :=
  List.insertionSort (fun a b : Int => a ≤ b)
    ((firstOccurrences l).filter (fun v => l.count v = maxCount l))

/-- `strictmode` (src/utils.py lines 14-19): the unique most frequent value
of a series; if several values tie for most frequent it raises a
`ValueError` carrying the value distribution (`s.value_counts()`).  An empty
series also raises (from `mode.item()`), with an empty distribution. -/
def strictmode (l : List Int) : Except (List (Int × Nat)) Int :=
  let mode := seriesMode l
  if 1 < mode.length then .error (valueCounts l)
  else
    match mode with
    | [x] => .ok x
    | _ => .error []

/-- The joined frame produced by `RouteInfo.points`: the spatial-join rows
together with the frame's coordinate reference system (geopandas carries the
CRS as frame metadata, and `to_crs` rewrites both the active point geometry
and the tag). -/
structure JoinedPoint where
  ping : Ping
  shape_id : String
  pattern_name : String
  segment_id : String
  start_stop_name : String
  start_stop_id : String
  end_stop_name : String
  end_stop_id : String
  stop_sequence : Int
  distance_m : ℚ
  shape : Geom
  geom : Pt
deriving DecidableEq, Repr

structure PointsFrame where
  rows : List JoinedPoint
  crs : String
deriving DecidableEq, Repr

/-- The state of a `RouteInfo` instance (src/utils.py lines 22-38): the
route's schedule segments, the trip → pattern mapping, the telemetry table
behind `db_path`, and the per-direction joined-point cache `_point_data`. -/
structure RouteInfo where
  segments : List Segment
  trips_patterns : List TripPattern
  table : List Ping
  route : String
  directions : String × String
  point_data : List (Nat × PointsFrame)
deriving DecidableEq, Repr

/-- `RouteInfo.__init__`: filter the feed's segments to the route and start
with an empty cache. -/
def RouteInfo.init (feed_segments : List Segment) (trips_patterns : List TripPattern)
    (table : List Ping) (route : String) (directions : String × String) : RouteInfo :=
  { segments := feed_segments.filter (fun s => s.route_id = route)
    trips_patterns := trips_patterns
    table := table
    route := route
    directions := directions
    point_data := [] }

/-- `_vehicle_positions` (src/utils.py lines 53-99): the telemetry rows of
this route and direction, ordered by timestamp. -/
def vehiclePositions (ri : RouteInfo) (direction : Nat) : List Ping :=
  List.insertionSort (fun a b : Ping => a.timestamp ≤ b.timestamp)
    (ri.table.filter (fun p => p.route_id = ri.route ∧ p.direction_id = direction))

/-- The trips_patterns rows matching a ping on
`["trip_id", "route_id", "direction_id"]` (the `join` of
src/utils.py lines 110-113). -/
def tripMatches (tps : List TripPattern) (p : Ping) : List TripPattern :=
  tps.filter (fun tp =>
    tp.trip_id = p.trip_id ∧ tp.route_id = p.route_id ∧ tp.direction_id = p.direction_id)

/-- The pings of a direction joined to their trip's pattern.  A ping with no
matching trips_patterns row gets a null shape_id and is dropped by the
subsequent `groupby("shape_id")`, so only matched pairs are kept. -/
def joinedPings (ri : RouteInfo) (direction : Nat) : List (Ping × TripPattern) :=
  (vehiclePositions ri direction).flatMap
    (fun p => (tripMatches ri.trips_patterns p).map (fun tp => (p, tp)))

section SpatialJoin

variable (proj unproj : Pt → Pt) (dist : Pt → Geom → ℚ)

/-- `x.sjoin_nearest(segments, max_distance=12, rsuffix="segment")` for a
single left row: every segment of the shape group attaining the minimal
distance to the (projected) ping is attached, provided that minimum is at
most 12 meters; otherwise the ping is dropped (inner join).  geopandas
returns one output row per equidistant nearest neighbour. -/
def pingProj (p : Ping) : Pt := proj (p.longitude, p.latitude)

def nearestJoin (segs : List Segment) (pt : Ping × TripPattern) : List JoinedPoint :=
  match (segs.map (fun s => dist (pingProj proj pt.1) (s.geometry.map proj))).min? with
  | none => []
  | some m =>
    if m ≤ 12 then
      (segs.filter (fun s => dist (pingProj proj pt.1) (s.geometry.map proj) = m)).map (fun s =>
        { ping := pt.1
          shape_id := pt.2.shape_id
          pattern_name := pt.2.pattern_name
          segment_id := s.segment_id
          start_stop_name := s.start_stop_name
          start_stop_id := s.start_stop_id
          end_stop_name := s.end_stop_name
          end_stop_id := s.end_stop_id
          stop_sequence := s.stop_sequence
          distance_m := s.distance_m
          shape := s.geometry.map proj
          geom := pingProj proj pt.1 })
    else []

/-- The nearest segments of a ping within one shape group: those attaining
the minimal distance among the group. -/
def nearestSegs (segs : List Segment) (p : Ping) : List Segment :=
  segs.filter (fun s => dist (pingProj proj p) (s.geometry.map proj) =
    ((segs.map (fun s2 => dist (pingProj proj p) (s2.geometry.map proj))).min?).getD 0)

/-- The per-shape joins of `points` (src/utils.py lines 114-120), shape
group by shape group.  `segments_by_shape.get_group(x.name)` raises
`KeyError` when a shape that occurs among the pings has no segment row. -/
def joinShapes (joined : List (Ping × TripPattern)) (route_segments : List Segment) :
    List String → Except String (List JoinedPoint)
  | [] => .ok []
  | sh :: rest =>
    let segsOf := route_segments.filter (fun s => s.shape_id = sh)
    if segsOf.isEmpty then .error ("KeyError: " ++ sh)
    else
      match joinShapes joined route_segments rest with
      | .error e => .error e
      | .ok rows =>
        .ok ((joined.filter (fun pt => pt.2.shape_id = sh)).flatMap
              (nearestJoin proj dist segsOf) ++ rows)

/-- The body of the cache-miss branch of `RouteInfo.points`
(src/utils.py lines 104-120): fetch and project the pings, join them to their
pattern, and spatially join each shape group against that shape's segments in
the projected CRS. -/
def computePoints (ri : RouteInfo) (direction : Nat) : Except String (List JoinedPoint) :=
  let joined := joinedPings ri direction
  let route_segments := ri.segments.filter (fun s => s.direction_id = direction)
  joinShapes proj dist joined route_segments
    (firstOccurrences (joined.map (fun pt => pt.2.shape_id)))

/-- `frame.to_crs(c)`: reproject the active point geometry and retag the
frame.  The `shape` column is a plain attribute column and is not touched. -/
def frameToCrs (f : Pt → Pt) (c : String) (fr : PointsFrame) : PointsFrame :=
  { rows := fr.rows.map (fun r => { r with geom := f r.geom }), crs := c }

/-- `RouteInfo.points` (src/utils.py lines 101-122).  On a cache hit the
cached frame is returned unchanged.  On a miss the join is computed in
EPSG:26910; `points.to_crs("WGS-84")` is stored in `_point_data`, but the
value returned is the local variable `points`, still in the projected CRS
(`to_crs` returns a new frame and does not mutate `points`). -/
def points (ri : RouteInfo) (direction : Nat) :
    Except String (PointsFrame × RouteInfo) :=
  match ri.point_data.lookup direction with
  | some fr => .ok (fr, ri)
  | none =>
    match computePoints proj dist ri direction with
    | .error e => .error e
    | .ok rows =>
      let fr : PointsFrame := { rows := rows, crs := "EPSG:26910" }
      .ok (fr, { ri with point_data := (direction, frameToCrs unproj "WGS-84" fr) :: ri.point_data })

end SpatialJoin

/-- The `groupby` key of the trip-crossing aggregation of `plot_hourly`
(src/utils.py line 224): `["segment_id", "trip_id", "start_time", "shape"]`. -/
structure HKey where
  segment_id : String
  trip_id : String
  start_time : Int
  shape : Geom
deriving DecidableEq, Repr

def hKey (r : JoinedPoint) : HKey :=
  { segment_id := r.segment_id
    trip_id := r.ping.trip_id
    start_time := r.ping.start_time
    shape := r.shape }

/-- One Segment Crossing as computed by `plot_hourly`
(src/utils.py lines 223-235): one row per group with the min/max timestamp
renamed to enter/exit time, travel time in seconds, and the hour of the
median timestamp. -/
structure Crossing where
  segment_id : String
  trip_id : String
  start_time : Int
  geometry : Geom
  enter_time : Int
  exit_time : Int
  travel_time : Int
  hour_of_day : Int
deriving DecidableEq, Repr

def mkCrossing (rows : List JoinedPoint) (k : HKey) : Crossing :=
  let ts := (rows.filter (fun r => hKey r = k)).map (fun r => r.ping.timestamp)
  { segment_id := k.segment_id
    trip_id := k.trip_id
    start_time := k.start_time
    geometry := k.shape
    enter_time := listMin ts
    exit_time := listMax ts
    travel_time := listMax ts - listMin ts
    hour_of_day := hourOfMedian ts }

/-- `segment_times` of `plot_hourly` (src/utils.py lines 223-235). -/
def segmentTimes (rows : List JoinedPoint) : List Crossing :=
  (firstOccurrences (rows.map hKey)).map (mkCrossing rows)

/-- One row of `hourly_segment_times` (src/utils.py lines 236-242): the
`describe()` aggregate of the positive travel times of one
(segment, hour-of-day, geometry) group.  Only the `count` and `mean` columns
are modelled; no stated property mentions `std` or the quartiles. -/
structure StatRow where
  segment_id : String
  hour_of_day : Int
  geometry : Geom
  count : Nat
  mean : ℚ
deriving DecidableEq, Repr, Inhabited

def sKey (c : Crossing) : String × Int × Geom := (c.segment_id, c.hour_of_day, c.geometry)

/-- `hourly_segment_times` (src/utils.py lines 236-242): drop non-positive
travel times, group by `["segment_id", "hour_of_day", "geometry"]` and
describe the travel times. -/
def mkStatRow (pos : List Crossing) (k : String × Int × Geom) : StatRow :=
  { segment_id := k.1
    hour_of_day := k.2.1
    geometry := k.2.2
    count := (pos.filter (fun c => sKey c = k)).length
    mean := (((pos.filter (fun c => sKey c = k)).map (fun c => (c.travel_time : ℚ))).sum) /
      (((pos.filter (fun c => sKey c = k)).length : ℚ)) }

def hourlyStats (cs : List Crossing) : List StatRow :=
  (firstOccurrences ((cs.filter (fun c => 0 < c.travel_time)).map sKey)).map
    (mkStatRow (cs.filter (fun c => 0 < c.travel_time)))

/-- A `hourly_segment_times` row after the reference-hour differential
column has been added (src/utils.py lines 244-256). -/
structure DiffRow extends StatRow where
  mean_diff : ℚ
deriving DecidableEq, Repr, Inhabited

/-- One cell of
`hourly_segment_times.pivot_table(index="hour_of_day", columns="segment_id", values="mean")`:
`pivot_table` aggregates with the mean when several stat rows (same segment
id, different geometry) fall into one cell, and leaves the cell null when
none does. -/
def pivotCell (stats : List StatRow) (h : Int) (sid : String) : Option ℚ :=
  let xs := (stats.filter (fun r => r.hour_of_day = h ∧ r.segment_id = sid)).map (fun r => r.mean)
  if xs.isEmpty then none else some (xs.sum / (xs.length : ℚ))

/-- The reference-hour differential of `plot_hourly`
(src/utils.py lines 244-256): `.loc[reference_hour]` raises a `KeyError`
when the reference hour indexes no row of the pivot; otherwise each row gets
`mean_diff = mean - ref`, where `ref` is the segment's reference-hour pivot
cell with nulls filled by 0. -/
def withRefDiff (stats : List StatRow) (reference_hour : Int) :
    Except String (List DiffRow) :=
  if stats.all (fun r => r.hour_of_day ≠ reference_hour) then
    .error ("KeyError: " ++ toString reference_hour)
  else
    .ok (stats.map (fun r =>
      { toStatRow := r
        mean_diff := r.mean - ((pivotCell stats reference_hour r.segment_id).getD 0) }))

/-- The `groupby` key of `plot_hourly_distributions`
(src/utils.py lines 317-330). -/
structure DKey where
  pattern_name : String
  segment_id : String
  start_stop_name : String
  start_stop_id : String
  end_stop_name : String
  end_stop_id : String
  trip_id : String
  start_time : Int
  shape : Geom
deriving DecidableEq, Repr

def dKey (r : JoinedPoint) : DKey :=
  { pattern_name := r.pattern_name
    segment_id := r.segment_id
    start_stop_name := r.start_stop_name
    start_stop_id := r.start_stop_id
    end_stop_name := r.end_stop_name
    end_stop_id := r.end_stop_id
    trip_id := r.ping.trip_id
    start_time := r.ping.start_time
    shape := r.shape }

/-- One crossing of `plot_hourly_distributions` (src/utils.py lines
317-345): the group key plus enter/exit time, the strict-mode stop sequence,
travel time and the hour of the median timestamp. -/
structure DCrossing extends DKey where
  enter_time : Int
  exit_time : Int
  stop_sequence : Int
  travel_time : Int
  hour_of_day : Int
deriving DecidableEq, Repr

def mkDCrossing (rows : List JoinedPoint) (k : DKey) (sq : Int) : DCrossing :=
  let ts := (rows.filter (fun r => dKey r = k)).map (fun r => r.ping.timestamp)
  { toDKey := k
    enter_time := listMin ts
    exit_time := listMax ts
    stop_sequence := sq
    travel_time := listMax ts - listMin ts
    hour_of_day := hourOfMedian ts }

/-- The grouped aggregation of `plot_hourly_distributions`
(src/utils.py lines 317-345), group by group: the `strictmode` aggregate of
a group's stop sequences aborts the whole aggregation with its `ValueError`
payload; otherwise the group becomes one crossing row. -/
def mkDCrossings (rows : List JoinedPoint) :
    List DKey → Except (List (Int × Nat)) (List DCrossing)
  | [] => .ok []
  | k :: ks =>
    match strictmode ((rows.filter (fun r => dKey r = k)).map (fun r => r.stop_sequence)) with
    | .error e => .error e
    | .ok sq =>
      match mkDCrossings rows ks with
      | .error e => .error e
      | .ok rest => .ok (mkDCrossing rows k sq :: rest)

/-- `segment_times` of `plot_hourly_distributions`
(src/utils.py lines 317-345). -/
def segmentTimesD (rows : List JoinedPoint) : Except (List (Int × Nat)) (List DCrossing) :=
  mkDCrossings rows (firstOccurrences (rows.map dKey))

/-- A distribution row after the clip filter and labelling. -/
structure LabeledCrossing extends DCrossing where
  segment_name : String
deriving DecidableEq, Repr

def labelCrossing (c : DCrossing) : LabeledCrossing :=
  { toDCrossing := c
    segment_name := c.start_stop_name ++ " ... " ++ c.end_stop_name }

/-- Ascending lexicographic order on
`["hour_of_day", "pattern_name", "stop_sequence"]`
(the `sort_values` of src/utils.py lines 352-354). -/
def distrOrder (a b : LabeledCrossing) : Prop :=
  a.hour_of_day < b.hour_of_day ∨
    (a.hour_of_day = b.hour_of_day ∧
      (a.pattern_name < b.pattern_name ∨
        (a.pattern_name = b.pattern_name ∧ a.stop_sequence ≤ b.stop_sequence)))

instance : DecidableRel distrOrder := fun a b => by
  unfold distrOrder
  infer_instance

/-- `hourly_segment_times` of `plot_hourly_distributions`
(src/utils.py lines 346-354): keep crossings with
`0 < travel_time < clip_threshold`, label them with the human-readable
segment name, and sort. -/
def distribRows (cs : List DCrossing) (clip_threshold : Int) : List LabeledCrossing :=
  List.insertionSort distrOrder
    ((cs.filter (fun c => 0 < c.travel_time ∧ c.travel_time < clip_threshold)).map labelCrossing)

/-- The data frame behind the box plot of `plot_hourly_distributions`
(src/utils.py lines 316-354). -/
def plotHourlyDistributionsData (rows : List JoinedPoint) (clip_threshold : Int) :
    Except (List (Int × Nat)) (List LabeledCrossing) :=
  (segmentTimesD rows).map (fun cs => distribRows cs clip_threshold)

/-- `self.directions[direction]`: tuple indexing by the direction id. -/
def dirLabel (directions : String × String) (d : Fin 2) : String :=
  if d.val = 0 then directions.1 else directions.2

/-- Python's `str` of an `Optional[int]`, as interpolated by an f-string. -/
def pyStrOptNat : Option Nat → String
  | none => "None"
  | some n => toString n

/-- The file name written by `plot_points` (src/utils.py line 163). -/
def pointsFilename (d : Fin 2) (directions : String × String) : String :=
  toString d.val ++ "-" ++ dirLabel directions d ++ "_points.html"

/-- The file name written by `plot_slow_zones` (src/utils.py line 205). -/
def slowZonesFilename (d : Fin 2) (directions : String × String) : String :=
  toString d.val ++ "-" ++ dirLabel directions d ++ "_slow_zones.html"

/-- The file name written by `plot_hourly` (src/utils.py lines 300-302). -/
def hourlyFilename (d : Fin 2) (directions : String × String)
    (reference_hour : Option Nat) : String :=
  toString d.val ++ "-" ++ dirLabel directions d ++ "_hourly_" ++
    pyStrOptNat reference_hour ++ ".html"

/-- The file name written by `plot_hourly_distributions`
(src/utils.py line 389). -/
def distrHourlyFilename (d : Fin 2) (directions : String × String) : String :=
  toString d.val ++ "-" ++ dirLabel directions d ++ "_distr_hourly.html"

/-- `fig.write_html(save_dir / filename, ...)` guarded by
`if save_dir is not None`: the list of paths written by one plot call. -/
def writeHtml (save_dir : Option String) (filename : String) : List String :=
  match save_dir with
  | none => []
  | some dir => [dir ++ "/" ++ filename]

/-- `{direction}-{direction_label}_{view}.html`: the output naming pattern of
the visualization layer. -/
def htmlName (d : Fin 2) (directions : String × String) (view : String) : String :=
  toString d.val ++ "-" ++ dirLabel directions d ++ "_" ++ view ++ ".html"

/-- Identity projection used to instantiate the abstract CRS transform on
concrete runs. -/
def exProj : Pt → Pt := fun p => p

/-- A distance function under which every ping is on its segment. -/
def exDist0 : Pt → Geom → ℚ := fun _ _ => 0

/-- A distance function placing every ping exactly 5 meters from every
segment: two segments of one shape then tie as nearest neighbours, the
situation of a ping at the shared boundary point of two consecutive
segments. -/
def exDist5 : Pt → Geom → ℚ := fun _ _ => 5

def exSeg1 : Segment :=
  { route_id := "6-VIC", direction_id := 0, shape_id := "sh1", segment_id := "s1"
    start_stop_name := "A", start_stop_id := "a", end_stop_name := "B", end_stop_id := "b"
    stop_sequence := 1, distance_m := 100, geometry := [(0, 0), (10, 0)] }

def exSeg2 : Segment :=
  { route_id := "6-VIC", direction_id := 0, shape_id := "sh1", segment_id := "s2"
    start_stop_name := "B", start_stop_id := "b", end_stop_name := "C", end_stop_id := "c"
    stop_sequence := 2, distance_m := 100, geometry := [(10, 0), (20, 0)] }

def exTrip : TripPattern :=
  { trip_id := "t1", route_id := "6-VIC", direction_id := 0, shape_id := "sh1"
    pattern_name := "P1" }

/-- A telemetry record of trip `t1`, placed at longitude `lon` at local
time `t` (seconds). -/
def exPing (lon : ℚ) (t : Int) : Ping :=
  { latitude := 0, longitude := lon, start_time := 28700, timestamp := t
    speed := 5, odometer := 0, vehicle_id := "v1", route_id := "6-VIC", direction_id := 0
    stop_id := "st1", current_status := "IN_TRANSIT_TO", trip_id := "t1" }

/-- One route, one shape, one segment, one trip with three pings timestamped
08:00:00, 08:00:30 and 08:01:00 local time (28800, 28830 and 28860 seconds
after local midnight). -/
def exRI : RouteInfo :=
  RouteInfo.init [exSeg1] [exTrip] [exPing 1 28800, exPing 2 28830, exPing 3 28860]
    "6-VIC" ("Royal Oak", "Downtown")

/-- The same scenario with two consecutive segments on the one shape and a
single ping equidistant from both. -/
def exRI2 : RouteInfo :=
  RouteInfo.init [exSeg1, exSeg2] [exTrip] [exPing 1 28800]
    "6-VIC" ("Royal Oak", "Downtown")

def exRun1 : Option (PointsFrame × RouteInfo) :=
  (points exProj exProj exDist0 exRI 0).toOption

def exRun2 : Option (PointsFrame × RouteInfo) :=
  exRun1.bind (fun x => (points exProj exProj exDist0 x.2 0).toOption)

def exRun3 : Option (PointsFrame × RouteInfo) :=
  exRun2.bind (fun x => (points exProj exProj exDist0 x.2 0).toOption)

def exFR : PointsFrame :=
  ((points exProj exProj exDist0 exRI 0).toOption.map (fun x => x.1)).getD ⟨[], ""⟩

def exRIafter : RouteInfo :=
  ((points exProj exProj exDist0 exRI 0).toOption.map (fun x => x.2)).getD exRI

/-- The joined rows of the fixture route, as produced by `points`. -/
def exRows : List JoinedPoint :=
  ((points exProj exProj exDist0 exRI 0).toOption.map (fun x => x.1.rows)).getD []

/-- The Segment Crossings of one segment id with positive travel time whose
hour-of-day bucket is the given hour: the crossings behind that segment's
reference-hour statistic. -/
def refCrossings (cs : List Crossing) (sid : String) (h : Int) : List Crossing :=
  cs.filter (fun c => 0 < c.travel_time ∧ c.segment_id = sid ∧ c.hour_of_day = h)

def exDiffOut : List DiffRow :=
  (withRefDiff (hourlyStats (segmentTimes exRows)) 8).toOption.getD []

def exDCrossings : List DCrossing := (segmentTimesD exRows).toOption.getD []

theorem mem_firstOccAux {α : Type} [DecidableEq α] {x : α} :
    ∀ {seen l : List α}, x ∈ firstOccAux seen l ↔ x ∈ l ∧ x ∉ seen := by
  intro seen l
  induction l generalizing seen with
  | nil => simp [firstOccAux]
  | cons y ys ih =>
    by_cases hy : y ∈ seen
    · simp only [firstOccAux, if_pos hy, ih, List.mem_cons]
      constructor
      · rintro ⟨h1, h2⟩; exact ⟨Or.inr h1, h2⟩
      · rintro ⟨h1 | h1, h2⟩
        · exact absurd hy (h1 ▸ h2)
        · exact ⟨h1, h2⟩
    · simp only [firstOccAux, if_neg hy, List.mem_cons, ih]
      constructor
      · rintro (rfl | ⟨h1, h2⟩)
        · exact ⟨Or.inl rfl, hy⟩
        · exact ⟨Or.inr h1, fun hs => h2 (Or.inr hs)⟩
      · rintro ⟨rfl | h1, h2⟩
        · exact Or.inl rfl
        · by_cases hxy : x = y
          · exact Or.inl hxy
          · refine Or.inr ⟨h1, ?_⟩
            rintro (h | h)
            · exact hxy h
            · exact h2 h

theorem mem_firstOccurrences {α : Type} [DecidableEq α] {x : α} {l : List α} :
    x ∈ firstOccurrences l ↔ x ∈ l := by
  simp [firstOccurrences, mem_firstOccAux]

theorem nodup_firstOccAux {α : Type} [DecidableEq α] :
    ∀ {seen l : List α}, (firstOccAux seen l).Nodup := by
  intro seen l
  induction l generalizing seen with
  | nil => simp [firstOccAux]
  | cons y ys ih =>
    by_cases hy : y ∈ seen
    · simpa [firstOccAux, if_pos hy] using ih
    · simp only [firstOccAux, if_neg hy, List.nodup_cons]
      refine ⟨fun hmem => ?_, ih⟩
      exact (mem_firstOccAux.1 hmem).2 (List.mem_cons_self _ _)

theorem nodup_firstOccurrences {α : Type} [DecidableEq α] {l : List α} :
    (firstOccurrences l).Nodup :=
  nodup_firstOccAux

theorem headI_mem {α : Type} [Inhabited α] {l : List α} (h : l ≠ []) : l.headI ∈ l := by
  cases l with
  | nil => exact absurd rfl h
  | cons a t => exact List.mem_cons_self a t

theorem filter_eq_singleton_of_nodup {α : Type} [DecidableEq α] {l : List α} {a : α}
    (hnd : l.Nodup) (ha : a ∈ l) : l.filter (fun x => x = a) = [a] := by
  induction l with
  | nil => cases ha
  | cons x xs ih =>
    rcases List.nodup_cons.1 hnd with ⟨hx, hxs⟩
    by_cases hxa : x = a
    · subst hxa
      have hnone : xs.filter (fun y => y = x) = [] := by
        rw [List.filter_eq_nil_iff]
        intro b hb
        simp only [decide_eq_true_eq]
        intro hba
        exact hx (hba ▸ hb)
      simp [List.filter_cons, hnone]
    · have ha' : a ∈ xs := by
        rcases List.mem_cons.1 ha with h | h
        · exact absurd h.symm hxa
        · exact h
      simp [List.filter_cons, hxa, ih hxs ha']

theorem flatMap_eq_flatMap_filter {α β : Type} {l : List α} {f : α → List β} {q : α → Bool}
    (h : ∀ x ∈ l, f x ≠ [] → q x = true) : l.flatMap f = (l.filter q).flatMap f := by
  induction l with
  | nil => rfl
  | cons x xs ih =>
    have ih' := ih (fun y hy => h y (List.mem_cons_of_mem _ hy))
    by_cases hq : q x = true
    · simp [List.filter_cons, hq, List.flatMap_cons, ih']
    · have hfx : f x = [] := by
        by_contra hne
        exact hq (h x (List.mem_cons_self _ _) hne)
      simp [List.filter_cons, hq, List.flatMap_cons, hfx, ih']

theorem min?_spec {l : List ℚ} {m : ℚ} (h : l.min? = some m) :
    m ∈ l ∧ ∀ x ∈ l, m ≤ x := by
  haveI : Std.Antisymm (fun a b : ℚ => a ≤ b) := ⟨@fun a b h1 h2 => le_antisymm h1 h2⟩
  rw [List.min?_eq_some_iff (fun a => le_refl a) (fun a b => min_choice a b)
    (fun a b c => le_min_iff)] at h
  exact h

theorem count_le_maxCount {l : List Int} {v : Int} (hv : v ∈ l) :
    l.count v ≤ maxCount l := by
  have hmem : l.count v ∈ l.map (fun w => l.count w) := List.mem_map.2 ⟨v, hv, rfl⟩
  cases hmax : (l.map (fun w => l.count w)).max? with
  | none =>
    rw [List.max?_eq_none_iff] at hmax
    rw [hmax] at hmem
    cases hmem
  | some m =>
    have hle := (List.max?_le_iff (fun a b c => max_le_iff) hmax (x := m)).1 (le_refl m)
    have : l.count v ≤ m := hle _ hmem
    simpa [maxCount, hmax] using this

theorem exists_maxCount {l : List Int} (hl : l ≠ []) :
    ∃ v ∈ l, l.count v = maxCount l := by
  cases hmax : (l.map (fun w => l.count w)).max? with
  | none =>
    rw [List.max?_eq_none_iff, List.map_eq_nil_iff] at hmax
    exact absurd hmax hl
  | some m =>
    have hmem := List.max?_mem (fun a b => max_choice a b) hmax
    rcases List.mem_map.1 hmem with ⟨v, hv, hcv⟩
    exact ⟨v, hv, by simp [maxCount, hmax, hcv]⟩

theorem mem_seriesMode {l : List Int} {v : Int} :
    v ∈ seriesMode l ↔ v ∈ l ∧ l.count v = maxCount l := by
  unfold seriesMode
  rw [(List.perm_insertionSort _ _).mem_iff, List.mem_filter, mem_firstOccurrences]
  simp [decide_eq_true_eq]

theorem nodup_seriesMode {l : List Int} : (seriesMode l).Nodup := by
  unfold seriesMode
  exact (List.perm_insertionSort _ _).nodup_iff.2
    (List.Nodup.filter _ nodup_firstOccurrences)

theorem mem_valueCounts {l : List Int} {v : Int} (hv : v ∈ l) :
    (v, l.count v) ∈ valueCounts l := by
  unfold valueCounts
  rw [(List.perm_insertionSort _ _).mem_iff]
  exact List.mem_map.2 ⟨v, mem_firstOccurrences.2 hv, rfl⟩

/-- C4: for every non-empty series of stop-sequence values, `strictmode`
returns the unique most frequent value when it exists, errors exactly when
two or more values tie for most frequent (so it never silently picks a tied
value), and its error payload reports every most-frequent value with its
count. -/
theorem strictmode_spec (l : List Int) (hl : l ≠ []) :
    (∀ v : Int, strictmode l = .ok v ↔
      (v ∈ l ∧ ∀ w ∈ l, l.count w ≤ l.count v ∧ (l.count w = l.count v → w = v))) ∧
    ((∃ e, strictmode l = .error e) ↔
      ∃ a ∈ l, ∃ b ∈ l, a ≠ b ∧ l.count a = l.count b ∧ ∀ w ∈ l, l.count w ≤ l.count a) ∧
    (∀ e, strictmode l = .error e →
      ∀ v ∈ l, (∀ w ∈ l, l.count w ≤ l.count v) → (v, l.count v) ∈ e) := by
  have hmodne : seriesMode l ≠ [] := by
    rcases exists_maxCount hl with ⟨v, hv, hcv⟩
    intro hempty
    have hmem : v ∈ seriesMode l := mem_seriesMode.2 ⟨hv, hcv⟩
    rw [hempty] at hmem
    cases hmem
  by_cases hlen : 1 < (seriesMode l).length
  · have hsm : strictmode l = .error (valueCounts l) := by
      simp [strictmode, hlen]
    obtain ⟨a, b, rest, hab⟩ : ∃ a b rest, seriesMode l = a :: b :: rest := by
      cases hM : seriesMode l with
      | nil => rw [hM] at hlen; simp at hlen
      | cons a t =>
        cases ht : t with
        | nil => rw [hM, ht] at hlen; simp at hlen
        | cons b rest => exact ⟨a, b, rest, rfl⟩
    have hane : a ≠ b := by
      have hnd := nodup_seriesMode (l := l)
      rw [hab] at hnd
      rcases List.nodup_cons.1 hnd with ⟨hna, _⟩
      intro h
      exact hna (h ▸ List.mem_cons_self b rest)
    have haS : a ∈ seriesMode l := by rw [hab]; exact List.mem_cons_self _ _
    have hbS : b ∈ seriesMode l := by
      rw [hab]; exact List.mem_cons_of_mem _ (List.mem_cons_self _ _)
    rcases mem_seriesMode.1 haS with ⟨hal, hca⟩
    rcases mem_seriesMode.1 hbS with ⟨hbl, hcb⟩
    refine ⟨?_, ⟨?_, ?_⟩, ?_⟩
    · intro v
      constructor
      · intro hok
        rw [hsm] at hok
        cases hok
      · rintro ⟨hvl, hmax⟩
        have h1 : l.count a = l.count v :=
          le_antisymm (hmax a hal).1 (hca ▸ count_le_maxCount hvl)
        have h2 : l.count b = l.count v :=
          le_antisymm (hmax b hbl).1 (hcb ▸ count_le_maxCount hvl)
        have hav := (hmax a hal).2 h1
        have hbv := (hmax b hbl).2 h2
        exact absurd (hav.trans hbv.symm) hane
    · rintro ⟨e, _⟩
      refine ⟨a, hal, b, hbl, hane, by rw [hca, hcb], fun w hw => ?_⟩
      exact hca ▸ count_le_maxCount hw
    · intro _
      exact ⟨valueCounts l, hsm⟩
    · intro e he v hv _
      rw [hsm] at he
      injection he with he'
      exact he' ▸ mem_valueCounts hv
  · push_neg at hlen
    obtain ⟨x, hMx⟩ : ∃ x, seriesMode l = [x] := by
      cases hM : seriesMode l with
      | nil => exact absurd hM hmodne
      | cons a t =>
        cases ht : t with
        | nil => exact ⟨a, rfl⟩
        | cons b rest =>
          rw [hM, ht] at hlen
          simp [List.length_cons] at hlen
    have hsm : strictmode l = .ok x := by
      simp [strictmode, hMx]
    have hxS : x ∈ seriesMode l := by rw [hMx]; exact List.mem_cons_self _ _
    rcases mem_seriesMode.1 hxS with ⟨hxl, hcx⟩
    have humode : ∀ w ∈ l, l.count w ≤ l.count x ∧ (l.count w = l.count x → w = x) := by
      intro w hw
      refine ⟨hcx ▸ count_le_maxCount hw, fun heq => ?_⟩
      have hwS : w ∈ seriesMode l := mem_seriesMode.2 ⟨hw, heq.trans hcx⟩
      rw [hMx] at hwS
      simpa using hwS
    refine ⟨?_, ⟨?_, ?_⟩, ?_⟩
    · intro v
      constructor
      · intro hok
        rw [hsm] at hok
        injection hok with hxv
        exact hxv ▸ ⟨hxl, humode⟩
      · rintro ⟨hvl, hmax⟩
        have h1 : l.count v ≤ l.count x := (humode v hvl).1
        have h2 : l.count x ≤ l.count v := (hmax x hxl).1
        have hxv : x = v := (hmax x hxl).2 (le_antisymm h2 h1)
        rw [hsm, hxv]
    · rintro ⟨e, he⟩
      rw [hsm] at he
      cases he
    · rintro ⟨a, hal, b, hbl, hne, hcab, hmax⟩
      have hca : l.count a = maxCount l := by
        rcases exists_maxCount hl with ⟨v0, hv0, hcv0⟩
        exact le_antisymm (count_le_maxCount hal) (hcv0 ▸ hmax v0 hv0)
      have haS : a ∈ seriesMode l := mem_seriesMode.2 ⟨hal, hca⟩
      have hbS : b ∈ seriesMode l := mem_seriesMode.2 ⟨hbl, by rw [← hcab]; exact hca⟩
      rw [hMx] at haS hbS
      have hax : a = x := by simpa using haS
      have hbx : b = x := by simpa using hbS
      exact absurd (hax.trans hbx.symm) hne
    · intro e he
      rw [hsm] at he
      cases he

/-- Witness for `strictmode_spec`: `[3,3,3,5]` yields its unique mode 3, and
`[3,3,5,5]` raises, with both tied values (and their counts) named in the
reported distribution. -/
theorem strictmode_spec_witness :
    strictmode [3, 3, 3, 5] = .ok 3 ∧
      ∃ e, strictmode [3, 3, 5, 5] = .error e ∧ (3, 2) ∈ e ∧ (5, 2) ∈ e := by
  constructor
  · exact ((strictmode_spec [3, 3, 3, 5] (by decide)).1 3).mpr (by decide)
  · obtain ⟨e, he⟩ := (strictmode_spec [3, 3, 5, 5] (by decide)).2.1.mpr
      ⟨3, by decide, 5, by decide, by decide, by decide, by decide⟩
    refine ⟨e, he, ?_, ?_⟩
    · have h3 := (strictmode_spec [3, 3, 5, 5] (by decide)).2.2 e he 3 (by decide) (by decide)
      simpa using h3
    · have h5 := (strictmode_spec [3, 3, 5, 5] (by decide)).2.2 e he 5 (by decide) (by decide)
      simpa using h5

/-- C9: with a save directory, each of the four renderers writes exactly one
HTML file, and its name follows `{direction}-{direction_label}_{view}.html`
with view names `points`, `slow_zones`, `hourly_{reference_hour}` and
`distr_hourly`. -/
theorem plot_filenames (d : Fin 2) (directions : String × String) (dir : String)
    (reference_hour : Option Nat) :
    writeHtml (some dir) (pointsFilename d directions) =
      [dir ++ "/" ++ htmlName d directions "points"] ∧
    writeHtml (some dir) (slowZonesFilename d directions) =
      [dir ++ "/" ++ htmlName d directions "slow_zones"] ∧
    writeHtml (some dir) (hourlyFilename d directions reference_hour) =
      [dir ++ "/" ++ htmlName d directions ("hourly_" ++ pyStrOptNat reference_hour)] ∧
    writeHtml (some dir) (distrHourlyFilename d directions) =
      [dir ++ "/" ++ htmlName d directions "distr_hourly"] ∧
    (writeHtml (some dir) (pointsFilename d directions)).length = 1 ∧
    (writeHtml (some dir) (slowZonesFilename d directions)).length = 1 ∧
    (writeHtml (some dir) (hourlyFilename d directions reference_hour)).length = 1 ∧
    (writeHtml (some dir) (distrHourlyFilename d directions)).length = 1 := by
  have hp : pointsFilename d directions = htmlName d directions "points" := by
    unfold pointsFilename htmlName
    apply String.ext
    simp only [String.data_append, List.append_assoc]
    rfl
  have hs : slowZonesFilename d directions = htmlName d directions "slow_zones" := by
    unfold slowZonesFilename htmlName
    apply String.ext
    simp only [String.data_append, List.append_assoc]
    rfl
  have hh : hourlyFilename d directions reference_hour =
      htmlName d directions ("hourly_" ++ pyStrOptNat reference_hour) := by
    unfold hourlyFilename htmlName
    apply String.ext
    simp only [String.data_append, List.append_assoc]
    rfl
  have hd : distrHourlyFilename d directions = htmlName d directions "distr_hourly" := by
    unfold distrHourlyFilename htmlName
    apply String.ext
    simp only [String.data_append, List.append_assoc]
    rfl
  refine ⟨?_, ?_, ?_, ?_, rfl, rfl, rfl, rfl⟩
  · rw [hp]; rfl
  · rw [hs]; rfl
  · rw [hh]; rfl
  · rw [hd]; rfl

/-- C1 (code bug): on the fixture route, the first call of `points` returns
the joined frame still in the projected CRS — `to_crs("WGS-84")` is applied
to the value stored in the cache but not to the value returned — while the
second and third calls return the cached WGS-84 frame.  The first and second
frames are therefore not bit-identical, although the second and third are. -/
theorem points_first_call_not_cached :
    exRun1.map (fun x => x.1.crs) = some "EPSG:26910" ∧
    exRun2.map (fun x => x.1.crs) = some "WGS-84" ∧
    exRun1.map (fun x => x.1) ≠ exRun2.map (fun x => x.1) ∧
    exRun2.map (fun x => x.1) = exRun3.map (fun x => x.1) := by
  decide

/-- C8: on the synthetic one-route, one-shape, one-segment fixture with three
pings at 08:00:00/08:00:30/08:01:00 all within tolerance, both crossing
computations (the `plot_hourly` one and the `plot_hourly_distributions` one)
yield a single crossing with a travel time of exactly 60 seconds, bucketed
into hour-of-day 8. -/
theorem end_to_end_scenario :
    ((points exProj exProj exDist0 exRI 0).toOption.map (fun x =>
      (segmentTimes x.1.rows).map (fun c => (c.travel_time, c.hour_of_day)))) =
        some [(60, 8)] ∧
    ((points exProj exProj exDist0 exRI 0).toOption.map (fun x =>
      (segmentTimesD x.1.rows).map (fun cs =>
        cs.map (fun c => (c.travel_time, c.hour_of_day))))) =
        some (.ok [(60, 8)]) := by
  decide

/-- C2 counterexample: a ping whose shape has two segments at exactly the
same (minimal, within-tolerance) distance is attached to both — the joined
result carries two rows for that one Position Ping, one per tied segment, so
"at most one row per ping" fails as stated. -/
theorem points_tie_two_rows :
    (points exProj exProj exDist5 exRI2 0).toOption.map (fun x =>
      ((x.1.rows.filter (fun r => r.ping = exPing 1 28800)).map
        (fun r => r.segment_id))) = some ["s1", "s2"] := by
  decide

theorem nearestJoin_sound {proj : Pt → Pt} {dist : Pt → Geom → ℚ}
    {segs : List Segment} {pt : Ping × TripPattern} {r : JoinedPoint}
    (h : r ∈ nearestJoin proj dist segs pt) :
    r.ping = pt.1 ∧ r.shape_id = pt.2.shape_id ∧ r.geom = pingProj proj pt.1 ∧
    dist r.geom r.shape ≤ 12 ∧
    (∃ s ∈ segs, r.shape = s.geometry.map proj ∧ r.segment_id = s.segment_id) ∧
    (∀ s2 ∈ segs, dist r.geom r.shape ≤ dist r.geom (s2.geometry.map proj)) := by
  unfold nearestJoin at h
  cases hmin : (segs.map (fun s => dist (pingProj proj pt.1) (s.geometry.map proj))).min? with
  | none =>
    simp only [hmin] at h
    exact absurd h (List.not_mem_nil r)
  | some m =>
    simp only [hmin] at h
    by_cases hle : m ≤ 12
    · rw [if_pos hle] at h
      rcases List.mem_map.1 h with ⟨s, hs, hr⟩
      rcases List.mem_filter.1 hs with ⟨hsseg, hselect⟩
      have hdist : dist (pingProj proj pt.1) (s.geometry.map proj) = m := by
        simpa using hselect
      subst hr
      refine ⟨rfl, rfl, rfl, ?_, ⟨s, hsseg, rfl, rfl⟩, ?_⟩
      · show dist (pingProj proj pt.1) (s.geometry.map proj) ≤ 12
        rw [hdist]
        exact hle
      · intro s2 hs2
        have hmem : dist (pingProj proj pt.1) (s2.geometry.map proj) ∈
            segs.map (fun s3 => dist (pingProj proj pt.1) (s3.geometry.map proj)) :=
          List.mem_map.2 ⟨s2, hs2, rfl⟩
        have hlow := (min?_spec hmin).2 _ hmem
        show dist (pingProj proj pt.1) (s.geometry.map proj) ≤ _
        rw [hdist]
        exact hlow
    · rw [if_neg hle] at h
      exact absurd h (List.not_mem_nil r)

theorem nearestJoin_length_le {proj : Pt → Pt} {dist : Pt → Geom → ℚ}
    {segs : List Segment} {pt : Ping × TripPattern} :
    (nearestJoin proj dist segs pt).length ≤ (nearestSegs proj dist segs pt.1).length := by
  unfold nearestJoin nearestSegs
  cases hmin : (segs.map (fun s => dist (pingProj proj pt.1) (s.geometry.map proj))).min? with
  | none => simp [hmin]
  | some m =>
    simp only [hmin]
    by_cases hle : m ≤ 12
    · rw [if_pos hle, List.length_map]
      simp [Option.getD_some]
    · rw [if_neg hle]
      exact Nat.zero_le _

theorem joinShapes_ok_eq {proj : Pt → Pt} {dist : Pt → Geom → ℚ}
    {joined : List (Ping × TripPattern)} {segs : List Segment} :
    ∀ {shapes : List String} {rows : List JoinedPoint},
    joinShapes proj dist joined segs shapes = .ok rows →
    rows = shapes.flatMap (fun sh =>
      (joined.filter (fun pt => pt.2.shape_id = sh)).flatMap
        (nearestJoin proj dist (segs.filter (fun s => s.shape_id = sh)))) := by
  intro shapes
  induction shapes with
  | nil =>
    intro rows h
    injection h with h2
    rw [← h2]
    rfl
  | cons sh rest ih =>
    intro rows h
    simp only [joinShapes] at h
    split at h
    · cases h
    · split at h
      · cases h
      · rename_i rows2 hrec
        injection h with h2
        rw [← h2, List.flatMap_cons, ih hrec]

theorem joinShapes_total {proj : Pt → Pt} {dist : Pt → Geom → ℚ}
    {joined : List (Ping × TripPattern)} {segs : List Segment} :
    ∀ {shapes : List String},
    (∀ sh ∈ shapes, ∃ s ∈ segs, s.shape_id = sh) →
    ∃ rows, joinShapes proj dist joined segs shapes = .ok rows := by
  intro shapes
  induction shapes with
  | nil => exact fun _ => ⟨[], rfl⟩
  | cons sh rest ih =>
    intro hcov
    obtain ⟨rows2, hrows2⟩ := ih (fun sh2 h2 => hcov sh2 (List.mem_cons_of_mem _ h2))
    obtain ⟨s, hs, hsid⟩ := hcov sh (List.mem_cons_self _ _)
    have hne : (segs.filter (fun s2 => s2.shape_id = sh)).isEmpty = false := by
      have hmem : s ∈ segs.filter (fun s2 => s2.shape_id = sh) :=
        List.mem_filter.2 ⟨hs, by simp [hsid]⟩
      cases hfe : (segs.filter (fun s2 => s2.shape_id = sh)).isEmpty with
      | false => rfl
      | true =>
        rw [List.isEmpty_iff] at hfe
        rw [hfe] at hmem
        cases hmem
    have hcond : ¬((segs.filter (fun s2 => s2.shape_id = sh)).isEmpty = true) := by
      rw [hne]
      exact Bool.false_ne_true
    refine ⟨((joined.filter (fun pt => pt.2.shape_id = sh)).flatMap
      (nearestJoin proj dist (segs.filter (fun s2 => s2.shape_id = sh)))) ++ rows2, ?_⟩
    simp only [joinShapes, hrows2]
    rw [if_neg hcond]

theorem points_ok_inv {proj unproj : Pt → Pt} {dist : Pt → Geom → ℚ}
    {ri ri2 : RouteInfo} {d : Nat} {fr : PointsFrame}
    (hcache : ri.point_data.lookup d = none)
    (h : points proj unproj dist ri d = .ok (fr, ri2)) :
    computePoints proj dist ri d = .ok fr.rows ∧ fr.crs = "EPSG:26910" := by
  unfold points at h
  rw [hcache] at h
  cases hcp : computePoints proj dist ri d with
  | error e =>
    rw [hcp] at h
    cases h
  | ok rows =>
    rw [hcp] at h
    injection h with h2
    have hfr : fr = { rows := rows, crs := "EPSG:26910" } := (congrArg Prod.fst h2).symm
    rw [hfr]
    exact ⟨hcp.symm ▸ rfl, rfl⟩

theorem computePoints_mem {proj : Pt → Pt} {dist : Pt → Geom → ℚ}
    {ri : RouteInfo} {d : Nat} {rows : List JoinedPoint} {r : JoinedPoint}
    (h : computePoints proj dist ri d = .ok rows) (hr : r ∈ rows) :
    ∃ pt ∈ joinedPings ri d,
      r ∈ nearestJoin proj dist
        ((ri.segments.filter (fun s => s.direction_id = d)).filter
          (fun s => s.shape_id = pt.2.shape_id)) pt := by
  unfold computePoints at h
  have heq := joinShapes_ok_eq h
  rw [heq] at hr
  rcases List.mem_flatMap.1 hr with ⟨sh, _, hr2⟩
  rcases List.mem_flatMap.1 hr2 with ⟨pt, hpt, hr3⟩
  rcases List.mem_filter.1 hpt with ⟨hptJ, hptSh⟩
  have hshid : pt.2.shape_id = sh := by simpa using hptSh
  refine ⟨pt, hptJ, ?_⟩
  rw [hshid]
  exact hr3

/-- C3: whenever every matched ping's shape has at least one segment row (so
the per-shape `get_group` lookups succeed), `points` succeeds, every Joined
Point it produces lies within 12 meters (in the projected CRS) of its
attached segment's geometry, and a matched ping all of whose shape's
segments are farther than 12 meters is silently dropped from the result
rather than causing an error. -/
theorem points_within_tolerance (proj unproj : Pt → Pt) (dist : Pt → Geom → ℚ)
    (ri : RouteInfo) (d : Nat)
    (hcache : ri.point_data.lookup d = none)
    (hcov : ∀ pt ∈ joinedPings ri d, ∃ s ∈ ri.segments,
      s.direction_id = d ∧ s.shape_id = pt.2.shape_id) :
    ∃ fr ri2, points proj unproj dist ri d = .ok (fr, ri2) ∧
      (∀ r ∈ fr.rows, dist r.geom r.shape ≤ 12) ∧
      (∀ pt ∈ joinedPings ri d,
        (∀ s ∈ ri.segments, s.direction_id = d → s.shape_id = pt.2.shape_id →
          ¬(dist (pingProj proj pt.1) (s.geometry.map proj) ≤ 12)) →
        ∀ r ∈ fr.rows, ¬(r.ping = pt.1 ∧ r.shape_id = pt.2.shape_id)) := by
  have hshapes : ∀ sh ∈ firstOccurrences ((joinedPings ri d).map (fun pt => pt.2.shape_id)),
      ∃ s ∈ ri.segments.filter (fun s => s.direction_id = d), s.shape_id = sh := by
    intro sh hsh
    rcases List.mem_map.1 (mem_firstOccurrences.1 hsh) with ⟨pt, hpt, hid⟩
    rcases hcov pt hpt with ⟨s, hs, hdir, hsid⟩
    exact ⟨s, List.mem_filter.2 ⟨hs, by simp [hdir]⟩, by rw [hsid, hid]⟩
  have htot : ∃ rows, joinShapes proj dist (joinedPings ri d)
      (ri.segments.filter (fun s => s.direction_id = d))
      (firstOccurrences ((joinedPings ri d).map (fun pt => pt.2.shape_id))) = .ok rows :=
    joinShapes_total hshapes
  obtain ⟨rows, hrows⟩ := htot
  have hcp : computePoints proj dist ri d = .ok rows := hrows
  refine ⟨⟨rows, "EPSG:26910"⟩,
    { ri with point_data :=
        (d, frameToCrs unproj "WGS-84" ⟨rows, "EPSG:26910"⟩) :: ri.point_data }, ?_, ?_, ?_⟩
  · simp only [points, hcache, hcp]
  · intro r hr
    obtain ⟨pt, hpt, hjoin⟩ := computePoints_mem hcp hr
    exact (nearestJoin_sound hjoin).2.2.2.1
  · rintro pt hpt hfar r hr ⟨hping, hshid⟩
    obtain ⟨pt2, hpt2, hjoin⟩ := computePoints_mem hcp hr
    obtain ⟨hping2, hshid2, hgeom2, hle, ⟨s, hsmem, hshape, _⟩, _⟩ := nearestJoin_sound hjoin
    rcases List.mem_filter.1 hsmem with ⟨hsall, hsid⟩
    rcases List.mem_filter.1 hsall with ⟨hsegs, hsdir⟩
    have hdir : s.direction_id = d := by simpa using hsdir
    have hsid2 : s.shape_id = pt2.2.shape_id := by simpa using hsid
    have hpp : pt2.1 = pt.1 := hping2.symm.trans hping
    have hsid3 : s.shape_id = pt.2.shape_id := by
      rw [hsid2]
      exact hshid2.symm.trans hshid
    refine hfar s hsegs hdir hsid3 ?_
    have hfin : dist r.geom r.shape ≤ 12 := hle
    rw [hgeom2, hshape, hpp] at hfin
    exact hfin

/-- Witness for `points_within_tolerance` on the concrete fixture route. -/
theorem points_within_tolerance_witness :
    ∃ fr ri2, points exProj exProj exDist0 exRI 0 = .ok (fr, ri2) ∧
      (∀ r ∈ fr.rows, exDist0 r.geom r.shape ≤ 12) ∧
      (∀ pt ∈ joinedPings exRI 0,
        (∀ s ∈ exRI.segments, s.direction_id = 0 → s.shape_id = pt.2.shape_id →
          ¬(exDist0 (pingProj exProj pt.1) (s.geometry.map exProj) ≤ 12)) →
        ∀ r ∈ fr.rows, ¬(r.ping = pt.1 ∧ r.shape_id = pt.2.shape_id)) :=
  points_within_tolerance exProj exProj exDist0 exRI 0 (by decide) (by decide)

theorem nearestJoin_ping {proj : Pt → Pt} {dist : Pt → Geom → ℚ}
    {segs : List Segment} {pt : Ping × TripPattern} {r : JoinedPoint}
    (h : r ∈ nearestJoin proj dist segs pt) : r.ping = pt.1 :=
  (nearestJoin_sound h).1

theorem joinShapes_no_shape {proj : Pt → Pt} {dist : Pt → Geom → ℚ}
    {joined : List (Ping × TripPattern)} {segs : List Segment}
    {shapes : List String} {rows : List JoinedPoint} {p : Ping}
    (h : joinShapes proj dist joined segs shapes = .ok rows)
    (hnot : ∀ pt ∈ joined, pt.1 = p → pt.2.shape_id ∉ shapes) :
    rows.filter (fun r => r.ping = p) = [] := by
  rw [List.filter_eq_nil_iff]
  intro r hr hp
  rw [joinShapes_ok_eq h] at hr
  rcases List.mem_flatMap.1 hr with ⟨sh, hsh, hr2⟩
  rcases List.mem_flatMap.1 hr2 with ⟨pt, hpt, hr3⟩
  rcases List.mem_filter.1 hpt with ⟨hptJ, hptSh⟩
  have hping : r.ping = p := by simpa using hp
  have hrp : r.ping = pt.1 := nearestJoin_ping hr3
  have hpt1 : pt.1 = p := hrp.symm.trans hping
  have hptsh2 : pt.2.shape_id = sh := by simpa using hptSh
  exact hnot pt hptJ hpt1 (by rw [hptsh2]; exact hsh)

theorem joinShapes_filter_ping_len {proj : Pt → Pt} {dist : Pt → Geom → ℚ}
    {joined : List (Ping × TripPattern)} {segs : List Segment} {p : Ping} {tp : TripPattern}
    (hone : joined.filter (fun pt => pt.1 = p) = [(p, tp)]) :
    ∀ {shapes : List String} {rows : List JoinedPoint}, shapes.Nodup →
    joinShapes proj dist joined segs shapes = .ok rows →
    (rows.filter (fun r => r.ping = p)).length ≤
      (nearestJoin proj dist (segs.filter (fun s => s.shape_id = tp.shape_id)) (p, tp)).length := by
  have hptchar : ∀ pt ∈ joined, pt.1 = p → pt = (p, tp) := by
    intro pt hpt hp1
    have hmem : pt ∈ joined.filter (fun pt2 => pt2.1 = p) :=
      List.mem_filter.2 ⟨hpt, by simp [hp1]⟩
    rw [hone] at hmem
    simpa using hmem
  intro shapes
  induction shapes with
  | nil =>
    intro rows _ h
    injection h with h2
    rw [← h2]
    simp
  | cons sh rest ih =>
    intro rows hnd h
    rcases List.nodup_cons.1 hnd with ⟨hshrest, hndrest⟩
    simp only [joinShapes] at h
    split at h
    · cases h
    · split at h
      · cases h
      · rename_i rows2 hrec
        injection h with h2
        rw [← h2, List.filter_append, List.length_append]
        have hblock : ((joined.filter (fun pt => pt.2.shape_id = sh)).flatMap
              (nearestJoin proj dist (segs.filter (fun s => s.shape_id = sh)))).filter
                (fun r => r.ping = p) =
            (((joined.filter (fun pt => pt.2.shape_id = sh)).filter (fun pt => pt.1 = p)).flatMap
              (fun pt => (nearestJoin proj dist (segs.filter (fun s => s.shape_id = sh)) pt).filter
                (fun r => r.ping = p))) := by
          rw [List.filter_flatMap]
          exact flatMap_eq_flatMap_filter (fun pt _ hne => by
            obtain ⟨r, hrmem⟩ := List.exists_mem_of_ne_nil _ hne
            rcases List.mem_filter.1 hrmem with ⟨hrj, hrp⟩
            have h1 : r.ping = pt.1 := nearestJoin_ping hrj
            have h2 : r.ping = p := by simpa using hrp
            simp [h1.symm.trans h2])
        have hfilters : (joined.filter (fun pt => pt.2.shape_id = sh)).filter
              (fun pt => pt.1 = p) =
            [(p, tp)].filter (fun pt => pt.2.shape_id = sh) := by
          rw [List.filter_comm, hone]
        by_cases hcase : tp.shape_id = sh
        · have hrest0 : (rows2.filter (fun r => r.ping = p)).length = 0 := by
            have hnil := joinShapes_no_shape hrec (fun pt hpt hp1 => by
              rw [hptchar pt hpt hp1]
              show tp.shape_id ∉ rest
              rw [hcase]
              exact hshrest)
            rw [hnil]
            rfl
          rw [hrest0, Nat.add_zero, hblock, hfilters]
          have hsingle : [(p, tp)].filter (fun pt => pt.2.shape_id = sh) = [(p, tp)] := by
            simp [List.filter_cons, hcase]
          rw [hsingle, List.flatMap_cons, List.flatMap_nil, List.append_nil, ← hcase]
          exact List.length_filter_le _ _
        · have hempty : [(p, tp)].filter (fun pt => pt.2.shape_id = sh) = [] := by
            simp [List.filter_cons, hcase]
          rw [hblock, hfilters, hempty, List.flatMap_nil, List.length_nil, Nat.zero_add]
          exact ih hndrest hrec

/-- C2 (amended): every row of the joined result is attached to a segment at
the minimal distance (at most 12 meters) among its shape group, and a ping
that is matched to exactly one pattern and whose nearest segment within its
shape group is unique is attached to at most one row.  (Several rows per ping
occur exactly when several segments tie for nearest, as `points_tie_two_rows`
shows.) -/
theorem points_at_most_one_nearest (proj unproj : Pt → Pt) (dist : Pt → Geom → ℚ)
    (ri : RouteInfo) (d : Nat) (fr : PointsFrame) (ri2 : RouteInfo)
    (p : Ping) (tp : TripPattern)
    (hcache : ri.point_data.lookup d = none)
    (h : points proj unproj dist ri d = .ok (fr, ri2))
    (hone : (joinedPings ri d).filter (fun pt => pt.1 = p) = [(p, tp)])
    (huniq : (nearestSegs proj dist
        ((ri.segments.filter (fun s => s.direction_id = d)).filter
          (fun s => s.shape_id = tp.shape_id)) p).length ≤ 1) :
    (fr.rows.filter (fun r => r.ping = p)).length ≤ 1 ∧
    ∀ r ∈ fr.rows, dist r.geom r.shape ≤ 12 ∧
      ∀ s ∈ ri.segments, s.direction_id = d → s.shape_id = r.shape_id →
        dist r.geom r.shape ≤ dist r.geom (s.geometry.map proj) := by
  obtain ⟨hcp, _⟩ := points_ok_inv hcache h
  constructor
  · have hcp2 : joinShapes proj dist (joinedPings ri d)
        (ri.segments.filter (fun s => s.direction_id = d))
        (firstOccurrences ((joinedPings ri d).map (fun pt => pt.2.shape_id))) = .ok fr.rows := hcp
    have hlen := joinShapes_filter_ping_len hone nodup_firstOccurrences hcp2
    exact hlen.trans (nearestJoin_length_le.trans huniq)
  · intro r hr
    obtain ⟨pt2, hpt2, hjoin⟩ := computePoints_mem hcp hr
    obtain ⟨hping2, hshid2, hgeom2, hle, _, hminimal⟩ := nearestJoin_sound hjoin
    refine ⟨hle, ?_⟩
    intro s hs hdir hsid
    apply hminimal
    exact List.mem_filter.2 ⟨List.mem_filter.2 ⟨hs, by simp [hdir]⟩,
      by simp [hsid.trans hshid2]⟩

/-- Witness for `points_at_most_one_nearest` on the concrete fixture route,
where the nearest segment of each ping is unique. -/
theorem points_at_most_one_nearest_witness :
    (exFR.rows.filter (fun r => r.ping = exPing 1 28800)).length ≤ 1 ∧
    ∀ r ∈ exFR.rows, exDist0 r.geom r.shape ≤ 12 ∧
      ∀ s ∈ exRI.segments, s.direction_id = 0 → s.shape_id = r.shape_id →
        exDist0 r.geom r.shape ≤ exDist0 r.geom (s.geometry.map exProj) :=
  points_at_most_one_nearest exProj exProj exDist0 exRI 0 exFR exRIafter
    (exPing 1 28800) exTrip (by decide) (by decide) (by decide) (by decide)

theorem hourlyStats_mem_spec {cs : List Crossing} {st : StatRow}
    (hst : st ∈ hourlyStats cs) :
    st.count = (cs.filter (fun c => 0 < c.travel_time ∧ c.segment_id = st.segment_id ∧
        c.hour_of_day = st.hour_of_day ∧ c.geometry = st.geometry)).length ∧
    st.mean = ((cs.filter (fun c => 0 < c.travel_time ∧ c.segment_id = st.segment_id ∧
        c.hour_of_day = st.hour_of_day ∧ c.geometry = st.geometry)).map
          (fun c => (c.travel_time : ℚ))).sum /
      ((cs.filter (fun c => 0 < c.travel_time ∧ c.segment_id = st.segment_id ∧
        c.hour_of_day = st.hour_of_day ∧ c.geometry = st.geometry)).length : ℚ) := by
  simp only [hourlyStats] at hst
  rcases List.mem_map.1 hst with ⟨k, hk, hbuild⟩
  obtain ⟨k1, k2, k3⟩ := k
  subst hbuild
  simp only [mkStatRow]
  have hkey : cs.filter (fun c => 0 < c.travel_time ∧ c.segment_id = k1 ∧
      c.hour_of_day = k2 ∧ c.geometry = k3) =
      (cs.filter (fun c => 0 < c.travel_time)).filter (fun c => sKey c = (k1, k2, k3)) := by
    rw [List.filter_filter]
    refine (List.filter_congr ?_).symm
    intro c _
    apply Bool.eq_iff_iff.mpr
    simp only [Bool.and_eq_true, decide_eq_true_eq]
    unfold sKey
    constructor
    · rintro ⟨hk2, hp⟩
      rw [Prod.mk.injEq, Prod.mk.injEq] at hk2
      exact ⟨hp, hk2.1, hk2.2.1, hk2.2.2⟩
    · rintro ⟨hp, h1, h2, h3⟩
      exact ⟨by rw [h1, h2, h3], hp⟩
  constructor
  · show ((cs.filter (fun c => 0 < c.travel_time)).filter
      (fun c => sKey c = (k1, k2, k3))).length = _
    rw [hkey]
  · show (((cs.filter (fun c => 0 < c.travel_time)).filter
        (fun c => sKey c = (k1, k2, k3))).map (fun c => (c.travel_time : ℚ))).sum /
      (((cs.filter (fun c => 0 < c.travel_time)).filter
        (fun c => sKey c = (k1, k2, k3))).length : ℚ) = _
    rw [hkey]

/-- C5: every row of the per-segment hourly statistics of `plot_hourly` has
`count` equal to the number of Segment Crossings with strictly positive
travel time whose median-timestamp hour and segment fall in that group, and
`mean` equal to the arithmetic mean of those crossings' travel times
(non-positive travel times having been excluded before the rollup). -/
theorem hourlyStats_count_mean (rows : List JoinedPoint) (st : StatRow)
    (hst : st ∈ hourlyStats (segmentTimes rows)) :
    st.count = ((segmentTimes rows).filter (fun c => 0 < c.travel_time ∧
        c.segment_id = st.segment_id ∧ c.hour_of_day = st.hour_of_day ∧
        c.geometry = st.geometry)).length ∧
    st.mean = (((segmentTimes rows).filter (fun c => 0 < c.travel_time ∧
        c.segment_id = st.segment_id ∧ c.hour_of_day = st.hour_of_day ∧
        c.geometry = st.geometry)).map (fun c => (c.travel_time : ℚ))).sum /
      (((segmentTimes rows).filter (fun c => 0 < c.travel_time ∧
        c.segment_id = st.segment_id ∧ c.hour_of_day = st.hour_of_day ∧
        c.geometry = st.geometry)).length : ℚ) :=
  hourlyStats_mem_spec hst

/-- Witness for `hourlyStats_count_mean` on the fixture route's single
(segment, hour 8) group. -/
theorem hourlyStats_count_mean_witness :
    (hourlyStats (segmentTimes exRows)).headI.count =
      ((segmentTimes exRows).filter (fun c => 0 < c.travel_time ∧
        c.segment_id = (hourlyStats (segmentTimes exRows)).headI.segment_id ∧
        c.hour_of_day = (hourlyStats (segmentTimes exRows)).headI.hour_of_day ∧
        c.geometry = (hourlyStats (segmentTimes exRows)).headI.geometry)).length ∧
    (hourlyStats (segmentTimes exRows)).headI.mean =
      (((segmentTimes exRows).filter (fun c => 0 < c.travel_time ∧
        c.segment_id = (hourlyStats (segmentTimes exRows)).headI.segment_id ∧
        c.hour_of_day = (hourlyStats (segmentTimes exRows)).headI.hour_of_day ∧
        c.geometry = (hourlyStats (segmentTimes exRows)).headI.geometry)).map
          (fun c => (c.travel_time : ℚ))).sum /
      (((segmentTimes exRows).filter (fun c => 0 < c.travel_time ∧
        c.segment_id = (hourlyStats (segmentTimes exRows)).headI.segment_id ∧
        c.hour_of_day = (hourlyStats (segmentTimes exRows)).headI.hour_of_day ∧
        c.geometry = (hourlyStats (segmentTimes exRows)).headI.geometry)).length : ℚ) :=
  hourlyStats_count_mean exRows _ (headI_mem (by decide))

theorem hourlyStats_mem_exists {cs : List Crossing} {st : StatRow}
    (hst : st ∈ hourlyStats cs) :
    ∃ c ∈ cs, 0 < c.travel_time ∧ c.segment_id = st.segment_id ∧
      c.hour_of_day = st.hour_of_day ∧ c.geometry = st.geometry := by
  simp only [hourlyStats] at hst
  rcases List.mem_map.1 hst with ⟨k, hk, hbuild⟩
  subst hbuild
  rcases List.mem_map.1 (mem_firstOccurrences.1 hk) with ⟨c, hcpos, hck⟩
  rcases List.mem_filter.1 hcpos with ⟨hccs, hcb⟩
  refine ⟨c, hccs, by simpa using hcb, ?_, ?_, ?_⟩
  · exact congrArg (fun x => x.1) hck
  · exact congrArg (fun x => x.2.1) hck
  · exact congrArg (fun x => x.2.2) hck

theorem hourlyStats_exists_row {cs : List Crossing} {c : Crossing}
    (hc : c ∈ cs) (hpos : 0 < c.travel_time) :
    ∃ st ∈ hourlyStats cs, st.segment_id = c.segment_id ∧
      st.hour_of_day = c.hour_of_day ∧ st.geometry = c.geometry := by
  have hcpos : c ∈ cs.filter (fun c2 => 0 < c2.travel_time) :=
    List.mem_filter.2 ⟨hc, by simp [hpos]⟩
  refine ⟨mkStatRow (cs.filter (fun c2 => 0 < c2.travel_time)) (sKey c), ?_, rfl, rfl, rfl⟩
  exact List.mem_map.2 ⟨sKey c,
    mem_firstOccurrences.2 (List.mem_map.2 ⟨c, hcpos, rfl⟩), rfl⟩

theorem hourlyStats_all_hour_iff {cs : List Crossing} {ref : Int} :
    ((hourlyStats cs).all (fun r => r.hour_of_day ≠ ref) = true) ↔
      ∀ c ∈ cs, 0 < c.travel_time → c.hour_of_day ≠ ref := by
  rw [List.all_eq_true]
  constructor
  · intro hall c hc hpos heq
    obtain ⟨st, hst, _, hhr, _⟩ := hourlyStats_exists_row hc hpos
    have hne := hall st hst
    rw [decide_eq_true_eq] at hne
    exact hne (hhr.trans heq)
  · intro hno st hst
    obtain ⟨c, hc, hpos, _, hhr, _⟩ := hourlyStats_mem_exists hst
    rw [decide_eq_true_eq, ← hhr]
    exact hno c hc hpos

theorem statsFilter_eq_nil {cs : List Crossing} {sid : String} {ref : Int}
    (hnone : refCrossings cs sid ref = []) :
    (hourlyStats cs).filter (fun r => r.hour_of_day = ref ∧ r.segment_id = sid) = [] := by
  rw [List.filter_eq_nil_iff]
  intro st hst hpred
  have hpred2 : st.hour_of_day = ref ∧ st.segment_id = sid := by simpa using hpred
  obtain ⟨c, hc, hpos, hseg, hhr, _⟩ := hourlyStats_mem_exists hst
  have hcmem : c ∈ refCrossings cs sid ref :=
    List.mem_filter.2 ⟨hc, by simp [hpos, hseg.trans hpred2.2, hhr.trans hpred2.1]⟩
  rw [hnone] at hcmem
  cases hcmem

theorem pivotCell_none {cs : List Crossing} {sid : String} {ref : Int}
    (hnone : refCrossings cs sid ref = []) :
    pivotCell (hourlyStats cs) ref sid = none := by
  have hfil := statsFilter_eq_nil hnone
  simp only [pivotCell, hfil]
  rfl

theorem statsFilter_eq_singleton {cs : List Crossing} {sid : String} {ref : Int} {g : Geom}
    (hne : refCrossings cs sid ref ≠ [])
    (hg : ∀ c ∈ refCrossings cs sid ref, c.geometry = g) :
    (hourlyStats cs).filter (fun r => r.hour_of_day = ref ∧ r.segment_id = sid) =
      [mkStatRow (cs.filter (fun c => 0 < c.travel_time)) (sid, ref, g)] := by
  unfold hourlyStats
  rw [List.filter_map]
  have hq : ∀ k ∈ firstOccurrences ((cs.filter (fun c => 0 < c.travel_time)).map sKey),
      ((fun r => decide (r.hour_of_day = ref ∧ r.segment_id = sid)) ∘
        mkStatRow (cs.filter (fun c => 0 < c.travel_time))) k =
      decide (k = (sid, ref, g)) := by
    intro k hk
    apply Bool.eq_iff_iff.mpr
    simp only [Function.comp_apply, decide_eq_true_eq]
    constructor
    · rintro ⟨h1, h2⟩
      rcases List.mem_map.1 (mem_firstOccurrences.1 hk) with ⟨c, hcpos, hck⟩
      rcases List.mem_filter.1 hcpos with ⟨hccs, hcb⟩
      have hcpos2 : 0 < c.travel_time := by simpa using hcb
      have hseg : c.segment_id = k.1 := congrArg (fun x => x.1) hck
      have hhr : c.hour_of_day = k.2.1 := congrArg (fun x => x.2.1) hck
      have hgeo : c.geometry = k.2.2 := congrArg (fun x => x.2.2) hck
      have hk1 : k.1 = sid := h2
      have hk2 : k.2.1 = ref := h1
      have hcmem : c ∈ refCrossings cs sid ref :=
        List.mem_filter.2 ⟨hccs, by simp [hcpos2, hseg.trans hk1, hhr.trans hk2]⟩
      have hk3 : k.2.2 = g := hgeo.symm.trans (hg c hcmem)
      obtain ⟨ka, kb, kc⟩ := k
      simp only at hk1 hk2 hk3
      rw [hk1, hk2, hk3]
    · rintro rfl
      exact ⟨rfl, rfl⟩
  rw [List.filter_congr hq,
    filter_eq_singleton_of_nodup nodup_firstOccurrences ?hmem]
  · rfl
  case hmem =>
    obtain ⟨c0, hc0⟩ := List.exists_mem_of_ne_nil _ hne
    rcases List.mem_filter.1 hc0 with ⟨hc0cs, hc0pred⟩
    have hp : 0 < c0.travel_time ∧ c0.segment_id = sid ∧ c0.hour_of_day = ref := by
      simpa using hc0pred
    have hc0g : c0.geometry = g := hg c0 hc0
    have hkey0 : sKey c0 = (sid, ref, g) := by
      unfold sKey
      rw [hp.2.1, hp.2.2, hc0g]
    rw [← hkey0]
    exact mem_firstOccurrences.2
      (List.mem_map.2 ⟨c0, List.mem_filter.2 ⟨hc0cs, by simp [hp.1]⟩, rfl⟩)

theorem posFilter_eq_refCrossings {cs : List Crossing} {sid : String} {ref : Int} {g : Geom}
    (hg : ∀ c ∈ refCrossings cs sid ref, c.geometry = g) :
    (cs.filter (fun c => 0 < c.travel_time)).filter (fun c => sKey c = (sid, ref, g)) =
      refCrossings cs sid ref := by
  rw [List.filter_filter]
  apply List.filter_congr
  intro c hc
  apply Bool.eq_iff_iff.mpr
  simp only [Bool.and_eq_true, decide_eq_true_eq]
  constructor
  · rintro ⟨hk, hp⟩
    have hseg : c.segment_id = sid := congrArg (fun x => x.1) hk
    have hhr : c.hour_of_day = ref := congrArg (fun x => x.2.1) hk
    exact ⟨hp, hseg, hhr⟩
  · rintro ⟨hp, h1, h2⟩
    have hcr : c ∈ refCrossings cs sid ref :=
      List.mem_filter.2 ⟨hc, by simp [hp, h1, h2]⟩
    refine ⟨?_, hp⟩
    unfold sKey
    rw [h1, h2, hg c hcr]

theorem pivotCell_single {cs : List Crossing} {sid : String} {ref : Int} {g : Geom}
    (hne : refCrossings cs sid ref ≠ [])
    (hg : ∀ c ∈ refCrossings cs sid ref, c.geometry = g) :
    pivotCell (hourlyStats cs) ref sid =
      some (((refCrossings cs sid ref).map (fun c => (c.travel_time : ℚ))).sum /
        ((refCrossings cs sid ref).length : ℚ)) := by
  simp only [pivotCell, statsFilter_eq_singleton hne hg]
  rw [if_neg (by simp)]
  simp only [List.map_cons, List.map_nil, List.sum_cons, List.sum_nil, List.length_cons,
    List.length_nil, add_zero, zero_add, Nat.cast_one, div_one, mkStatRow,
    posFilter_eq_refCrossings hg]

theorem withRefDiff_ok_eq {cs : List Crossing} {ref : Int}
    (h : ¬((hourlyStats cs).all (fun r => r.hour_of_day ≠ ref) = true)) :
    withRefDiff (hourlyStats cs) ref = .ok ((hourlyStats cs).map (fun r =>
      { toStatRow := r,
        mean_diff := r.mean - ((pivotCell (hourlyStats cs) ref r.segment_id).getD 0) })) := by
  unfold withRefDiff
  rw [if_neg h]

/-- C6: when `plot_hourly`'s reference-hour differential succeeds, each
output row's `mean_diff` equals its `mean` minus the segment's reference-hour
mean when the segment has (positive-travel-time) crossings at the reference
hour — all sharing the segment's geometry — and equals its `mean` unchanged
(the missing pivot cell is filled with zero) when the segment has no data at
the reference hour. -/
theorem withRefDiff_spec (rows : List JoinedPoint) (reference_hour : Int)
    (out : List DiffRow)
    (h : withRefDiff (hourlyStats (segmentTimes rows)) reference_hour = .ok out) :
    ∀ r ∈ out,
      (refCrossings (segmentTimes rows) r.segment_id reference_hour = [] →
        r.mean_diff = r.mean) ∧
      (∀ g : Geom,
        refCrossings (segmentTimes rows) r.segment_id reference_hour ≠ [] →
        (∀ c ∈ refCrossings (segmentTimes rows) r.segment_id reference_hour,
          c.geometry = g) →
        r.mean_diff = r.mean -
          ((refCrossings (segmentTimes rows) r.segment_id reference_hour).map
            (fun c => (c.travel_time : ℚ))).sum /
            ((refCrossings (segmentTimes rows) r.segment_id reference_hour).length : ℚ)) := by
  intro r hrout
  by_cases hall : (hourlyStats (segmentTimes rows)).all
      (fun r2 => r2.hour_of_day ≠ reference_hour) = true
  · unfold withRefDiff at h
    rw [if_pos hall] at h
    cases h
  · rw [withRefDiff_ok_eq hall] at h
    injection h with h2
    rw [← h2] at hrout
    rcases List.mem_map.1 hrout with ⟨st, hst, hbuild⟩
    subst hbuild
    constructor
    · intro hnone
      show st.mean - (pivotCell (hourlyStats (segmentTimes rows)) reference_hour
        st.segment_id).getD 0 = st.mean
      rw [pivotCell_none hnone]
      simp
    · intro g hne hg
      show st.mean - (pivotCell (hourlyStats (segmentTimes rows)) reference_hour
        st.segment_id).getD 0 = st.mean - _
      rw [pivotCell_single hne hg]
      rfl

/-- Witness for `withRefDiff_spec`: on the fixture route with reference hour
8 (the hour of the single crossing), the differential of the single output
row subtracts the segment's reference-hour mean. -/
theorem withRefDiff_spec_witness :
    exDiffOut.headI.mean_diff = exDiffOut.headI.mean -
      ((refCrossings (segmentTimes exRows) exDiffOut.headI.segment_id 8).map
        (fun c => (c.travel_time : ℚ))).sum /
      ((refCrossings (segmentTimes exRows) exDiffOut.headI.segment_id 8).length : ℚ) := by
  have hall : ¬((hourlyStats (segmentTimes exRows)).all
      (fun r => r.hour_of_day ≠ (8 : Int)) = true) := by decide
  have h : withRefDiff (hourlyStats (segmentTimes exRows)) 8 = .ok exDiffOut := by
    unfold exDiffOut
    simp only [withRefDiff_ok_eq hall]
    rfl
  exact ((withRefDiff_spec exRows 8 exDiffOut h exDiffOut.headI (headI_mem (by decide))).2)
    (exSeg1.geometry.map exProj) (by decide) (by decide)

/-- C10: if no Segment Crossing with positive travel time falls in the
requested reference hour, `plot_hourly`'s differential step raises an
uncaught lookup error (`.loc[reference_hour]` on the pivot) instead of
treating every reference mean as zero; the zero fill applies only
per-segment, when the reference hour is present in the statistics at all, in
which case segments without reference-hour data keep their mean unchanged. -/
theorem withRefDiff_missing_hour (rows : List JoinedPoint) (reference_hour : Int) :
    ((∀ c ∈ segmentTimes rows, 0 < c.travel_time → c.hour_of_day ≠ reference_hour) →
      withRefDiff (hourlyStats (segmentTimes rows)) reference_hour =
        .error ("KeyError: " ++ toString reference_hour)) ∧
    ((∃ c ∈ segmentTimes rows, 0 < c.travel_time ∧ c.hour_of_day = reference_hour) →
      ∃ out, withRefDiff (hourlyStats (segmentTimes rows)) reference_hour = .ok out ∧
        ∀ r ∈ out, refCrossings (segmentTimes rows) r.segment_id reference_hour = [] →
          r.mean_diff = r.mean) := by
  constructor
  · intro hno
    unfold withRefDiff
    rw [if_pos (hourlyStats_all_hour_iff.2 hno)]
  · rintro ⟨c, hc, hpos, hhr⟩
    have hall : ¬((hourlyStats (segmentTimes rows)).all
        (fun r => r.hour_of_day ≠ reference_hour) = true) := by
      rw [hourlyStats_all_hour_iff]
      intro hno
      exact hno c hc hpos hhr
    refine ⟨_, withRefDiff_ok_eq hall, ?_⟩
    intro r hrout hnone
    rcases List.mem_map.1 hrout with ⟨st, hst, hbuild⟩
    subst hbuild
    show st.mean - (pivotCell (hourlyStats (segmentTimes rows)) reference_hour
      st.segment_id).getD 0 = st.mean
    rw [pivotCell_none hnone]
    simp

/-- Witness for `withRefDiff_missing_hour`: on the fixture route (whose only
crossing sits in hour 8), reference hour 7 raises the lookup error while
reference hour 8 succeeds. -/
theorem withRefDiff_missing_hour_witness :
    withRefDiff (hourlyStats (segmentTimes exRows)) 7 =
      .error ("KeyError: " ++ toString (7 : Int)) ∧
    ∃ out, withRefDiff (hourlyStats (segmentTimes exRows)) 8 = .ok out ∧
      ∀ r ∈ out, refCrossings (segmentTimes exRows) r.segment_id 8 = [] →
        r.mean_diff = r.mean := by
  constructor
  · exact (withRefDiff_missing_hour exRows 7).1 (by decide)
  · exact (withRefDiff_missing_hour exRows 8).2 (by decide)

theorem mkDCrossings_ok_keys {rows : List JoinedPoint} :
    ∀ {ks : List DKey} {cs : List DCrossing},
    mkDCrossings rows ks = .ok cs → cs.map (fun c => c.toDKey) = ks := by
  intro ks
  induction ks with
  | nil =>
    intro cs h
    injection h with h2
    rw [← h2]
    rfl
  | cons k ks2 ih =>
    intro cs h
    simp only [mkDCrossings] at h
    split at h
    · cases h
    · split at h
      · cases h
      · rename_i rest hrec
        injection h with h2
        rw [← h2, List.map_cons, ih hrec]
        exact rfl

theorem segmentTimesD_nodup {rows : List JoinedPoint} {cs : List DCrossing}
    (h : segmentTimesD rows = .ok cs) : cs.Nodup := by
  unfold segmentTimesD at h
  have hkeys := mkDCrossings_ok_keys h
  have hnd : (cs.map (fun c => c.toDKey)).Nodup := by
    rw [hkeys]
    exact nodup_firstOccurrences
  exact List.Nodup.of_map _ hnd

theorem labelCrossing_injective : Function.Injective labelCrossing := by
  intro a b h
  exact congrArg (fun x => x.toDCrossing) h

/-- C7: on a successful distribution aggregation with clip threshold
`clip_threshold`, a Segment Crossing with `travel_time ≤ 0` or
`travel_time ≥ clip_threshold` is excluded from the output, and a crossing
with `0 < travel_time < clip_threshold` appears in the output (labelled with
its human-readable segment name) exactly once. -/
theorem distrib_clip_filter (rows : List JoinedPoint) (clip_threshold : Int)
    (cs : List DCrossing) (h : segmentTimesD rows = .ok cs) :
    plotHourlyDistributionsData rows clip_threshold =
      .ok (distribRows cs clip_threshold) ∧
    ∀ c ∈ cs,
      ((0 < c.travel_time ∧ c.travel_time < clip_threshold) →
        (distribRows cs clip_threshold).count (labelCrossing c) = 1) ∧
      ((c.travel_time ≤ 0 ∨ clip_threshold ≤ c.travel_time) →
        (distribRows cs clip_threshold).count (labelCrossing c) = 0) := by
  have hnd := segmentTimesD_nodup h
  constructor
  · unfold plotHourlyDistributionsData
    rw [h]
    rfl
  · intro c hc
    have hperm : (distribRows cs clip_threshold).count (labelCrossing c) =
        ((cs.filter (fun c2 => 0 < c2.travel_time ∧ c2.travel_time < clip_threshold)).map
          labelCrossing).count (labelCrossing c) := by
      unfold distribRows
      exact (List.perm_insertionSort _ _).count_eq _
    have hmapcount : ((cs.filter (fun c2 => 0 < c2.travel_time ∧
          c2.travel_time < clip_threshold)).map labelCrossing).count (labelCrossing c) =
        (cs.filter (fun c2 => 0 < c2.travel_time ∧ c2.travel_time < clip_threshold)).count c :=
      List.count_map_of_injective _ _ labelCrossing_injective _
    constructor
    · intro hkeep
      rw [hperm, hmapcount]
      have hcc : c ∈ cs.filter (fun c2 => 0 < c2.travel_time ∧
          c2.travel_time < clip_threshold) :=
        List.mem_filter.2 ⟨hc, by simp [hkeep.1, hkeep.2]⟩
      exact List.count_eq_one_of_mem (List.Nodup.filter _ hnd) hcc
    · intro hdrop
      rw [hperm, hmapcount, List.count_eq_zero]
      intro hmem
      rcases List.mem_filter.1 hmem with ⟨_, hpred⟩
      have hpred2 : 0 < c.travel_time ∧ c.travel_time < clip_threshold := by
        simpa using hpred
      rcases hdrop with hd | hd
      · exact absurd hpred2.1 (not_lt.2 hd)
      · exact absurd hpred2.2 (not_lt.2 hd)

/-- Witness for `distrib_clip_filter` on the fixture route with the default
clip threshold of 1000 seconds. -/
theorem distrib_clip_filter_witness :
    plotHourlyDistributionsData exRows 1000 = .ok (distribRows exDCrossings 1000) ∧
    ∀ c ∈ exDCrossings,
      ((0 < c.travel_time ∧ c.travel_time < 1000) →
        (distribRows exDCrossings 1000).count (labelCrossing c) = 1) ∧
      ((c.travel_time ≤ 0 ∨ (1000 : Int) ≤ c.travel_time) →
        (distribRows exDCrossings 1000).count (labelCrossing c) = 0) :=
  distrib_clip_filter exRows 1000 exDCrossings (by decide)
